import Mathlib

/-!
Verification development for the registry controller, scoring engine and
declarative patch (export) components.

The definitions below are shallow embeddings of the Go sources:
`cmd/registry/scoring/score.go` (scoring engine) and the patch package's
API export (`newApi`, `collectChildArtifacts`, `relativeVersionName`,
`relativeDeploymentName`, `ExportAPI`).  Machine integers are modelled as
`Int` with explicit wrap-around where Go converts between widths;
`float64`/`float32` values flowing through score expressions are modelled
as rationals (no property below depends on rounding of the binary
representation); timestamps are abstract integer instants; fallible Go
code returns `Except String`.  Interactions with the remote registry
(gRPC fetches, listings) are inputs to the embedded functions.
-/

deriving instance DecidableEq for Except

namespace Registry

/-- Severity enum of the Score proto.  The zero (default) value of the enum
is `unspecified`; `alert` is the severity used for out-of-range values. -/
inductive Severity
  | unspecified
  | okay
  | warning
  | alert
deriving DecidableEq, Repr

/-- Numeric range of a threshold (`min`/`max` are int32 in the proto). -/
structure ScoreRange where
  min : Int
  max : Int
deriving DecidableEq, Repr

/-- Threshold of an integer or percent score definition. -/
structure NumericThreshold where
  severity : Severity
  range : ScoreRange
deriving DecidableEq, Repr

/-- Threshold of a boolean score definition. -/
structure BooleanThreshold where
  severity : Severity
  value : Bool
deriving DecidableEq, Repr

/-- The `type` variant of a ScoreDefinition: `integer` with configured
min/max and thresholds, `percent` with thresholds, or `boolean` with
display strings and thresholds. -/
inductive ScoreType
  | integer (minValue maxValue : Int) (thresholds : List NumericThreshold)
  | percent (thresholds : List NumericThreshold)
  | boolean (displayTrue displayFalse : String) (thresholds : List BooleanThreshold)
deriving DecidableEq, Repr

/-- A dynamically-typed value produced by `evaluateScoreExpression`
(`int64`, `float64`, or `bool` in Go).  Floats are modelled as rationals. -/
inductive ScoreValue
  | int64 (i : Int)
  | float64 (q : ℚ)
  | boolean (b : Bool)
deriving DecidableEq, Repr

/-- Two's-complement wrap-around of an integer into the int32 range,
modelling Go's conversion of an in-range-or-not int64 to int32. -/
def wrap32 (i : Int) : Int :=
  (i + 2 ^ 31) % 2 ^ 32 - 2 ^ 31

/-- Truncation toward zero, the semantics of Go's float-to-integer
conversion: the fractional part is discarded (truncating division of the
reduced numerator by the positive denominator). -/
def truncTowardZero (q : ℚ) : Int :=
  Int.tdiv q.num (q.den : Int)

/-- Go conversion `int32(v)` for a float64 `v`: truncation toward zero,
then int32 wrap-around.  (For values whose integer part is out of int32
range Go leaves the conversion implementation-defined; no property below
depends on that case.) -/
def int32OfRat (q : ℚ) : Int :=
  wrap32 (truncTowardZero q)

/-- The typed `value` field of the Score proto. -/
inductive ScoreOutValue
  | integerValue (value minValue maxValue : Int)
  | percentValue (value : ℚ)
  | booleanValue (value : Bool) (displayValue : String)
deriving DecidableEq, Repr

/-- The Score proto built by `processScoreType`. -/
structure Score where
  id : String
  displayName : String
  description : String
  uri : String
  uriDisplayName : String
  definitionName : String
  value : ScoreOutValue
  severity : Severity
deriving DecidableEq, Repr

/-- Threshold walk for an integer score, mirroring the source loop that
assigns the severity of the first threshold whose range contains the
value and then breaks; when no threshold matches, the proto's default
(`unspecified`) severity is kept. -/
def numericSeverity (value : Int) : List NumericThreshold → Severity
  | [] => .unspecified
  | t :: rest =>
    if t.range.min ≤ value ∧ value ≤ t.range.max then t.severity
    else numericSeverity value rest

/-- Threshold walk for a percent score (ranges are cast to float in the
source; modelled as rationals). -/
def percentSeverity (value : ℚ) : List NumericThreshold → Severity
  | [] => .unspecified
  | t :: rest =>
    if (t.range.min : ℚ) ≤ value ∧ value ≤ (t.range.max : ℚ) then t.severity
    else percentSeverity value rest

/-- Threshold walk for a boolean score, mirroring the source loop that
assigns `score.Severity = t.Severity` for every matching threshold and
does not break: the accumulator is overwritten on each match. -/
def booleanSeverity (value : Bool) (sev : Severity) : List BooleanThreshold → Severity
  | [] => sev
  | t :: rest => booleanSeverity value (if t.value == value then t.severity else sev) rest

/-- Outcome of running one `score_formula` against the registry.  The
interactions of `processScoreFormula` with the outside world (pattern
substitution, artifact fetch, payload decoding, expression evaluation)
are inputs to the model: `failure` covers every error path of
`processScoreFormula` (invalid pattern, missing expression, failed fetch,
undecodable payload, expression error), while `success` carries the value
of the expression and whether the source artifact is newer than the score
artifact by more than the slack (the second disjunct of the
`updateRequired` computation). -/
inductive FormulaOutcome
  | failure (e : String)
  | success (value : ScoreValue) (artifactNewer : Bool)

/-- The result record returned by formula processing: `value` of the
expression, whether the score artifact `needsUpdate`, and the `err`
produced while applying the expression. -/
structure ScoreResult where
  value : Option ScoreValue
  needsUpdate : Bool
  err : Option String

/-- `processScoreFormula`: every error path yields a result with no value
and `needsUpdate = false`; on success `needsUpdate` is
`takeAction || artifact newer than score`. -/
def processScoreFormula (takeAction : Bool) : FormulaOutcome → ScoreResult
  | .failure e => ⟨none, false, some e⟩
  | .success v newer => ⟨some v, takeAction || newer, none⟩

/-- The `formula` variant of a ScoreDefinition: a single score formula, a
rollup over named score formulas, or an unrecognized variant.  Each inner
score formula of a rollup is paired with its `reference_id`;
`evalRollup` stands for `evaluateScoreExpression` applied to the
`rollup_expression` (external to this file's sources). -/
inductive Formula
  | single (outcome : FormulaOutcome)
  | rollup (rollupExpression : String) (scoreFormulas : List (String × FormulaOutcome))
      (evalRollup : (String → Option ScoreValue) → Except String ScoreValue)
  | unknown

/-- A ScoreDefinition: identifier, display metadata, value type and
formula. -/
structure ScoreDefinition where
  id : String
  displayName : String
  description : String
  uri : String
  uriDisplayName : String
  type : ScoreType
  formula : Formula

/-- The Score proto skeleton built at the top of `processScoreType`
before the type-directed `value`/`severity` assignment. -/
def mkScore (definition : ScoreDefinition) (project : String)
    (value : ScoreOutValue) (severity : Severity) : Score :=
  { id := "score-" ++ definition.id
    displayName := definition.displayName
    description := definition.description
    uri := definition.uri
    uriDisplayName := definition.uriDisplayName
    definitionName := project ++ "/artifacts/" ++ definition.id
    value := value
    severity := severity }

/-- `processScoreType`: dispatch on the definition's type, coerce the
dynamically-typed expression value, and assign the severity.  For
integer definitions the int32 value is checked against the configured
min/max (`alert` when outside) and otherwise matched against the
thresholds in order with break; for percent the same against [0, 100];
for boolean the thresholds loop has no break.  A value of the wrong
dynamic type (including a missing value) fails the typecheck. -/
def processScoreType (definition : ScoreDefinition) (scoreValue : Option ScoreValue)
    (project : String) : Except String Score :=
  match definition.type with
  | .integer minValue maxValue thresholds =>
    match scoreValue with
    | some (.int64 i) =>
      let value := wrap32 i
      .ok (mkScore definition project (.integerValue value minValue maxValue)
        (if value < minValue ∨ maxValue < value then .alert
         else numericSeverity value thresholds))
    | some (.float64 q) =>
      let value := int32OfRat q
      .ok (mkScore definition project (.integerValue value minValue maxValue)
        (if value < minValue ∨ maxValue < value then .alert
         else numericSeverity value thresholds))
    | _ => .error "failed typecheck for output: expected either int64 or float64"
  | .percent thresholds =>
    match scoreValue with
    | some (.int64 i) =>
      let value : ℚ := (i : ℚ)
      .ok (mkScore definition project (.percentValue value)
        (if value < 0 ∨ 100 < value then .alert
         else percentSeverity value thresholds))
    | some (.float64 q) =>
      .ok (mkScore definition project (.percentValue q)
        (if q < 0 ∨ 100 < q then .alert
         else percentSeverity q thresholds))
    | _ => .error "failed typecheck for output: expected either int64 or float64"
  | .boolean displayTrue displayFalse thresholds =>
    match scoreValue with
    | some (.boolean b) =>
      let displayValue :=
        if b ∧ displayTrue ≠ "" then displayTrue
        else if ¬b ∧ displayFalse ≠ "" then displayFalse
        else if b then "true" else "false"
      .ok (mkScore definition project (.booleanValue b displayValue)
        (booleanSeverity b .unspecified thresholds))
    | _ => .error "failed typecheck for output: expected bool"

/-- The loop body of `processRollUpFormula` over `score_formulas`: run
each inner formula, abort on its error (wrapped with context), validate
its `reference_id` (non-empty, no dash), store the inner value in the
rollup map under the `reference_id`, and accumulate `updateRequired`. -/
def rollUpLoop (takeAction : Bool) :
    List (String × FormulaOutcome) → (String → Option ScoreValue) → Bool →
    Except String ((String → Option ScoreValue) × Bool)
  | [], rollUpMap, updateRequired => .ok (rollUpMap, updateRequired)
  | (refId, outcome) :: rest, rollUpMap, updateRequired =>
    let result := processScoreFormula takeAction outcome
    match result.err with
    | some e => .error ("error processing rollup_formula.score_formulas: " ++ e)
    | none =>
      if refId = "" then .error "missing reference_id for score_formula"
      else if refId.data.contains '-' then
        .error "invalid reference_id for score_formula: cannot contain a dash"
      else
        rollUpLoop takeAction rest (fun k => if k = refId then result.value else rollUpMap k)
          (updateRequired || result.needsUpdate)

/-- `processRollUpFormula`: validate the required fields, run the inner
formulas building the rollup map (starting from `updateRequired :=
takeAction`), and when an update is required evaluate the rollup
expression over the map. -/
def processRollUpFormula (takeAction : Bool) (rollupExpression : String)
    (scoreFormulas : List (String × FormulaOutcome))
    (evalRollup : (String → Option ScoreValue) → Except String ScoreValue) : ScoreResult :=
  if scoreFormulas.isEmpty then ⟨none, false, some "missing rollup_formula.score_formulas"⟩
  else if rollupExpression = "" then
    ⟨none, false, some "missing rollup_formula.rollup_expression"⟩
  else
    match rollUpLoop takeAction scoreFormulas (fun _ => none) takeAction with
    | .error e => ⟨none, false, some e⟩
    | .ok (rollUpMap, updateRequired) =>
      if updateRequired then
        match evalRollup rollUpMap with
        | .error e => ⟨none, false, some e⟩
        | .ok v => ⟨some v, true, none⟩
      else ⟨none, false, none⟩

/-- `processFormula`: dispatch on the formula variant; an unrecognized
variant is an invalid definition. -/
def processFormula (takeAction : Bool) : Formula → ScoreResult
  | .single outcome => processScoreFormula takeAction outcome
  | .rollup expr formulas evalRollup => processRollUpFormula takeAction expr formulas evalRollup
  | .unknown => ⟨none, false, some "invalid formula in ScoreDefinition"⟩

/-- Result of fetching the existing score artifact: found with its update
time, absent, or a transport failure. -/
inductive FetchResult
  | found (updateTime : Int)
  | notFound
  | failure (e : String)
deriving DecidableEq, Repr

/-- The staleness decision at the top of `CalculateScore` (timestamps are
abstract instants, `threshold` is the fixed slack
`patterns.ResourceUpdateThreshold`): `takeAction` starts false, a
NotFound fetch of the score artifact sets it, any other fetch error
aborts, and a definition updated after the score artifact (with slack)
sets it. -/
def computeTakeAction (threshold defUpdateTime : Int) (fetch : FetchResult) :
    Except String Bool := do
  let (scoreUpdateTime, takeAction) ←
    match fetch with
    | .found t => Except.ok ((some t : Option Int), false)
    | .notFound => Except.ok ((none : Option Int), true)
    | .failure e => Except.error ("failed to fetch artifact: " ++ e)
  match scoreUpdateTime with
  | some t => Except.ok (takeAction || decide (defUpdateTime + threshold > t))
  | none => Except.ok takeAction

/-- Observable outcome of `CalculateScore`: the score artifact was
uploaded (`SetArtifact`), printed on a dry run, or left untouched. -/
inductive CalcOutcome
  | uploaded (score : Score)
  | printed (score : Score)
  | upToDate
deriving Repr

/-- `CalculateScore`: decide staleness, evaluate the formula, and when an
update is needed build the Score proto and upload (or print on dry run);
a formula error is returned as-is and nothing is uploaded. -/
def calculateScore (threshold defUpdateTime : Int) (fetch : FetchResult)
    (definition : ScoreDefinition) (project : String) (dryRun : Bool) :
    Except String CalcOutcome := do
  let takeAction ← computeTakeAction threshold defUpdateTime fetch
  let result := processFormula takeAction definition.formula
  match result.err with
  | some e => Except.error e
  | none =>
    if result.needsUpdate then
      match processScoreType definition result.value project with
      | .error e => Except.error e
      | .ok score =>
        if dryRun then Except.ok (.printed score) else Except.ok (.uploaded score)
    else
      Except.ok .upToDate

/-- The uploads performed by a `CalculateScore` run: `SetArtifact` is
called exactly when the run returns the uploaded outcome. -/
def uploadedScores : Except String CalcOutcome → List Score
  | .ok (.uploaded s) => [s]
  | _ => []

/-- Characters allowed in a resource identifier by the grammar of the
spec: lowercase letters, digits, and the punctuation set. -/
def isIdentChar (c : Char) : Bool :=
  ('a' ≤ c && c ≤ 'z') || ('0' ≤ c && c ≤ '9') ||
  c == '-' || c == '.' || c == '_' || c == '~' || c == '%'

/-- A valid identifier is a non-empty run of identifier characters. -/
def isValidIdent (s : String) : Bool :=
  !s.data.isEmpty && s.data.all isIdentChar

/-- Split a character list at every slash (the segments accumulate in
reverse in the second argument). -/
def splitSlashAux : List Char → List Char → List String
  | [], acc => [String.mk acc.reverse]
  | c :: rest, acc =>
    if c = '/' then String.mk acc.reverse :: splitSlashAux rest []
    else splitSlashAux rest (c :: acc)

/-- Split a string into its slash-delimited segments. -/
def splitSlash (s : String) : List String :=
  splitSlashAux s.data []

/-- An API resource name (`names.Api`): project and API identifiers. -/
structure ApiName where
  projectID : String
  apiID : String
deriving DecidableEq, Repr

/-- The canonical slash-form of an API name (`names.Api.String`). -/
def ApiName.render (n : ApiName) : String :=
  "projects/" ++ n.projectID ++ "/locations/global/apis/" ++ n.apiID

/-- A version resource name (`names.Version`). -/
structure VersionName where
  projectID : String
  apiID : String
  versionID : String
deriving DecidableEq, Repr

/-- The API under which a version lives (`names.Version.Api`). -/
def VersionName.api (n : VersionName) : ApiName :=
  ⟨n.projectID, n.apiID⟩

/-- A deployment resource name (`names.Deployment`). -/
structure DeploymentName where
  projectID : String
  apiID : String
  deploymentID : String
deriving DecidableEq, Repr

/-- The API under which a deployment lives (`names.Deployment.Api`). -/
def DeploymentName.api (n : DeploymentName) : ApiName :=
  ⟨n.projectID, n.apiID⟩

/-- Modelled from the spec: `names.ParseApi` (the names package is not
under src/).  Per the resource-name grammar of the spec an API name is
`projects/p/locations/global/apis/a` with identifiers drawn from the
validated charset. -/
def parseApi (s : String) : Option ApiName :=
  match splitSlash s with
  | ["projects", p, "locations", "global", "apis", a] =>
    if isValidIdent p && isValidIdent a then some ⟨p, a⟩ else none
  | _ => none

/-- Modelled from the spec: `names.ParseVersion` (the names package is
not under src/).  A version name is
`projects/p/locations/global/apis/a/versions/v`. -/
def parseVersion (s : String) : Option VersionName :=
  match splitSlash s with
  | ["projects", p, "locations", "global", "apis", a, "versions", v] =>
    if isValidIdent p && isValidIdent a && isValidIdent v then some ⟨p, a, v⟩ else none
  | _ => none

/-- Modelled from the spec: `names.ParseDeployment` (the names package is
not under src/).  A deployment name is
`projects/p/locations/global/apis/a/deployments/d`. -/
def parseDeployment (s : String) : Option DeploymentName :=
  match splitSlash s with
  | ["projects", p, "locations", "global", "apis", a, "deployments", d] =>
    if isValidIdent p && isValidIdent a && isValidIdent d then some ⟨p, a, d⟩ else none
  | _ => none

/-- `relativeVersionName`: the empty string maps to the empty string; a
version name that fails to parse fails the export; a parsed version is
replaced by its bare version id exactly when its API (rendered) equals
the exported API (rendered), and kept verbatim otherwise. -/
def relativeVersionName (apiName : ApiName) (version : String) : Except String String :=
  if version = "" then .ok ""
  else
    match parseVersion version with
    | none => .error ("invalid version name: " ++ version)
    | some versionName =>
      if versionName.api.render = apiName.render then .ok versionName.versionID
      else .ok version

/-- `relativeDeploymentName`: as `relativeVersionName` for deployments. -/
def relativeDeploymentName (apiName : ApiName) (deployment : String) : Except String String :=
  if deployment = "" then .ok ""
  else
    match parseDeployment deployment with
    | none => .error ("invalid deployment name: " ++ deployment)
    | some deploymentName =>
      if deploymentName.api.render = apiName.render then .ok deploymentName.deploymentID
      else .ok deployment

/-- The YAML model of an exported artifact (`models.Artifact`), reduced
to the header fields the export manipulates. -/
structure ArtifactModel where
  apiVersion : String
  kind : String
  parent : String
  name : String
deriving DecidableEq, Repr

/-- `collectChildArtifacts`: walk the listed artifact messages in order;
a message whose contents fail to decode (`newArtifact` error, an
external decoder abstracted as `decode`) is skipped with a log line, a
decoded artifact of the generic "Artifact" kind is skipped with a log
line, and every other artifact is kept with its inferable header fields
(`apiVersion`, `metadata.parent`) cleared. -/
def collectChildArtifacts {α : Type} (decode : α → Option ArtifactModel) :
    List α → List ArtifactModel
  | [] => []
  | m :: rest =>
    match decode m with
    | none => collectChildArtifacts decode rest
    | some artifact =>
      if artifact.kind = "Artifact" then collectChildArtifacts decode rest
      else
        { artifact with apiVersion := "", parent := "" } :: collectChildArtifacts decode rest

/-- The YAML model of an exported child version or deployment, reduced
to the header fields the export manipulates. -/
structure ChildDoc where
  apiVersion : String
  kind : String
  parent : String
  name : String
deriving DecidableEq, Repr

/-- The per-child enumeration loops of `newApi` for versions and
deployments: each listed child is converted by `newApiVersion` /
`newApiDeployment` (external conversions whose outcomes are inputs
here); the first conversion error aborts the listing, and a converted
child has its inferable fields (`apiVersion`, `kind`, `metadata.parent`)
cleared before being appended. -/
def gatherChildren : List (Except String ChildDoc) → Except String (List ChildDoc)
  | [] => .ok []
  | .error e :: _ => .error e
  | .ok child :: rest =>
    (gatherChildren rest).map
      (fun tail => { child with apiVersion := "", kind := "", parent := "" } :: tail)

/-- The API proto fields read by `newApi`. -/
structure ApiMessage where
  name : String
  displayName : String
  description : String
  availability : String
  recommendedVersion : String
  recommendedDeployment : String
  labels : List (String × String)
  annotations : List (String × String)
deriving DecidableEq, Repr

/-- The exported YAML document of an API (`models.Api`). -/
structure ApiDoc where
  apiVersion : String
  kind : String
  name : String
  labels : List (String × String)
  annotations : List (String × String)
  displayName : String
  description : String
  availability : String
  recommendedVersion : String
  recommendedDeployment : String
  apiVersions : List ChildDoc
  apiDeployments : List ChildDoc
  artifacts : List ArtifactModel
deriving DecidableEq, Repr

/-- The `apiVersion` stamped on exported documents (`RegistryV1`). -/
def registryV1 : String :=
  "apigeeregistry/v1"

/-- `newApi`: parse the API's own name, rewrite the recommended version
and deployment to relative form (any rewrite error is fatal), and when
`nested` enumerate child versions, deployments and typed artifacts; the
document's metadata name is the bare API id. -/
def newApi {α : Type} (message : ApiMessage) (nested : Bool)
    (versionResults deploymentResults : List (Except String ChildDoc))
    (decode : α → Option ArtifactModel) (artifactMessages : List α) :
    Except String ApiDoc := do
  let apiName ←
    match parseApi message.name with
    | some n => Except.ok n
    | none => Except.error ("invalid api name: " ++ message.name)
  let recommendedVersion ← relativeVersionName apiName message.recommendedVersion
  let recommendedDeployment ← relativeDeploymentName apiName message.recommendedDeployment
  let (versions, deployments, artifacts) ←
    if nested then do
      let versions ← gatherChildren versionResults
      let deployments ← gatherChildren deploymentResults
      Except.ok (versions, deployments, collectChildArtifacts decode artifactMessages)
    else
      Except.ok ([], [], [])
  Except.ok
    { apiVersion := registryV1
      kind := "API"
      name := apiName.apiID
      labels := message.labels
      annotations := message.annotations
      displayName := message.displayName
      description := message.description
      availability := message.availability
      recommendedVersion := recommendedVersion
      recommendedDeployment := recommendedDeployment
      apiVersions := versions
      apiDeployments := deployments
      artifacts := artifacts }

/-- `ExportAPI`: build the document with `newApi` and YAML-encode it; the
encoding is outside the model, so the export is identified with the
document it encodes, and it fails exactly when `newApi` fails. -/
def exportAPI {α : Type} (message : ApiMessage) (nested : Bool)
    (versionResults deploymentResults : List (Except String ChildDoc))
    (decode : α → Option ArtifactModel) (artifactMessages : List α) :
    Except String ApiDoc :=
  newApi message nested versionResults deploymentResults decode artifactMessages

/-- An action produced by the planner: substituted command, fully
qualified generated resource name, receipt flag. -/
structure Action where
  command : String
  generatedResource : String
  requiresReceipt : Bool
deriving DecidableEq, Repr

/-- Ordered insertion by command string, the comparison the planner sorts
its action list with. -/
def insertByCommand (a : Action) : List Action → List Action
  | [] => [a]
  | b :: rest =>
    if a.command ≤ b.command then a :: b :: rest else b :: insertByCommand a rest

/-- Sort a list of actions by command string. -/
def sortByCommand : List Action → List Action
  | [] => []
  | a :: rest => insertByCommand a (sortByCommand rest)

/-- Accumulate candidate actions while the global count is below the
cap: once the count reaches the cap, everything else is dropped and the
accumulated list is returned as is. -/
def takeUpToCap (maxActions : Nat) : List Action → List Action → List Action
  | acc, [] => acc
  | acc, a :: rest =>
    if maxActions ≤ acc.length then acc else takeUpToCap maxActions (acc ++ [a]) rest

/-- Modelled from the spec: `ProcessManifest` / `plan(m, p, k)` of the
action planner (the controller implementation is not under src/, only
its tests are).  Per the spec, each generated resource of the manifest
independently yields candidate actions (pattern expansion, dependency
matching and staleness are performed against the remote registry and
enter the model as the per-resource candidate lists); actions are
accumulated globally, planning halts once the count reaches
`maxActions` and returns what has been produced so far, and the final
list is sorted by command string. -/
def processManifest (generatedActions : List (List Action)) (maxActions : Nat) : List Action :=
  sortByCommand (generatedActions.foldl (takeUpToCap maxActions) [])

theorem length_insertByCommand (a : Action) (l : List Action) :
    (insertByCommand a l).length = l.length + 1 := by
  induction l with
  | nil => rfl
  | cons b rest ih =>
    unfold insertByCommand
    split
    · rfl
    · simp [ih]

theorem length_sortByCommand (l : List Action) :
    (sortByCommand l).length = l.length := by
  induction l with
  | nil => rfl
  | cons a rest ih => simp [sortByCommand, length_insertByCommand, ih]

theorem takeUpToCap_length_le (k : Nat) (l : List Action) :
    ∀ acc : List Action, acc.length ≤ k → (takeUpToCap k acc l).length ≤ k := by
  induction l with
  | nil => intro acc h; simpa [takeUpToCap] using h
  | cons a rest ih =>
    intro acc h
    unfold takeUpToCap
    split
    · exact h
    · rename_i hlt
      apply ih
      simp only [List.length_append, List.length_cons, List.length_nil]
      omega

theorem foldl_takeUpToCap_le (k : Nat) (gs : List (List Action)) :
    ∀ acc : List Action, acc.length ≤ k → (gs.foldl (takeUpToCap k) acc).length ≤ k := by
  induction gs with
  | nil => intro acc h; simpa using h
  | cons g rest ih => intro acc h; exact ih _ (takeUpToCap_length_le k g acc h)

/-- C1: for every manifest (entering the model as the per-generated-resource
candidate action lists) and every cap, the plan produced by the action
planner has at most `maxActions` actions. -/
theorem processManifest_le_maxActions (generatedActions : List (List Action)) (maxActions : Nat) :
    (processManifest generatedActions maxActions).length ≤ maxActions := by
  unfold processManifest
  rw [length_sortByCommand]
  exact foldl_takeUpToCap_le maxActions generatedActions [] (by simp)

/-- C2: in `CalculateScore`, the staleness decision `takeAction` is true
exactly when the existing score artifact is absent (NotFound) or the
definition artifact's update time plus the slack is after the score
artifact's update time, and any other fetch error aborts the whole
operation with a fetch error. -/
theorem computeTakeAction_iff :
    (∀ (threshold defUpdateTime : Int) (fetch : FetchResult) (b : Bool),
      computeTakeAction threshold defUpdateTime fetch = .ok b →
      (b = true ↔ fetch = .notFound ∨
        ∃ t, fetch = .found t ∧ defUpdateTime + threshold > t)) ∧
    (∀ (threshold defUpdateTime : Int) (e : String) (definition : ScoreDefinition)
      (project : String) (dryRun : Bool),
      calculateScore threshold defUpdateTime (.failure e) definition project dryRun =
        .error ("failed to fetch artifact: " ++ e)) := by
  constructor
  · intro threshold defUpdateTime fetch b h
    cases fetch with
    | found t =>
      simp only [computeTakeAction, bind, Except.bind, Except.ok.injEq, Bool.false_or] at h
      subst h
      simp
    | notFound =>
      simp only [computeTakeAction, bind, Except.bind, Except.ok.injEq] at h
      subst h
      simp
    | failure e =>
      simp [computeTakeAction, bind, Except.bind] at h
  · intro threshold defUpdateTime e definition project dryRun
    rfl

/-- Witness for C2 at concrete inputs: a present score artifact with the
definition newer within slack, and a transport failure. -/
theorem computeTakeAction_iff_witness :
    (true = true ↔ FetchResult.found 3 = FetchResult.notFound ∨
      ∃ t, FetchResult.found 3 = FetchResult.found t ∧ (5 : Int) + 1 > t) ∧
    calculateScore 1 5 (.failure "boom")
      { id := "d", displayName := "", description := "", uri := "", uriDisplayName := "",
        type := .integer 0 100 [], formula := .unknown } "p" false =
      .error ("failed to fetch artifact: " ++ "boom") :=
  ⟨computeTakeAction_iff.1 1 5 (.found 3) true (by decide),
   computeTakeAction_iff.2 1 5 "boom"
      { id := "d", displayName := "", description := "", uri := "", uriDisplayName := "",
        type := .integer 0 100 [], formula := .unknown } "p" false⟩

theorem wrap32_eq_self (i : Int) (hlo : -(2 ^ 31) ≤ i) (hhi : i ≤ 2 ^ 31 - 1) :
    wrap32 i = i := by
  unfold wrap32
  omega

theorem truncTowardZero_eq (q : ℚ) :
    truncTowardZero q = if 0 ≤ q then ⌊q⌋ else ⌈q⌉ := by
  unfold truncTowardZero
  split
  · rename_i h
    rw [Int.tdiv_eq_ediv (Rat.num_nonneg.mpr h) (Int.ofNat_nonneg _), Rat.floor_def]
  · rename_i h
    have hq : 0 ≤ -q := by linarith [lt_of_not_ge h]
    have h1 : Int.tdiv q.num (q.den : Int) = -Int.tdiv (-q).num ((-q).den : Int) := by
      rw [Rat.neg_num, Rat.neg_den, Int.neg_tdiv, neg_neg]
    rw [h1, Int.tdiv_eq_ediv (Rat.num_nonneg.mpr hq) (Int.ofNat_nonneg _), ← Rat.floor_def,
      Int.floor_neg, neg_neg]

theorem truncTowardZero_bounds (q : ℚ) (hlo : -(2 ^ 31) ≤ q) (hhi : q ≤ 2 ^ 31 - 1) :
    -(2 ^ 31) ≤ truncTowardZero q ∧ truncTowardZero q ≤ 2 ^ 31 - 1 := by
  rw [truncTowardZero_eq]
  split
  · rename_i h
    have h1 : (0 : Int) ≤ ⌊q⌋ := Int.le_floor.mpr (by exact_mod_cast h)
    have h2 : ⌊q⌋ ≤ 2 ^ 31 - 1 := by
      rw [Int.floor_le_iff]
      push_cast
      linarith
    constructor <;> omega
  · rename_i h
    have h1 : ⌈q⌉ ≤ 0 := Int.ceil_le.mpr (by push_cast; linarith [lt_of_not_ge h])
    have h2 : -(2 ^ 31) ≤ ⌈q⌉ := by
      have := Int.le_ceil q
      have : ((-(2 ^ 31) : Int) : ℚ) ≤ (⌈q⌉ : ℚ) := by push_cast at *; linarith
      exact_mod_cast this
    constructor <;> omega

theorem truncTowardZero_close (q : ℚ) :
    ((truncTowardZero q : Int) : ℚ) - q < 1 ∧ q - ((truncTowardZero q : Int) : ℚ) < 1 := by
  rw [truncTowardZero_eq]
  split
  · rename_i h
    have h1 := Int.floor_le q
    have h2 := Int.lt_floor_add_one q
    constructor <;> linarith
  · rename_i h
    have h1 := Int.le_ceil q
    have h2 := Int.ceil_lt_add_one q
    constructor <;> linarith

/-- C3 (amended): for an integer-typed definition the coercion to int32
keeps an in-range int64 exactly and takes a float64 to its truncation
toward zero (an integer within distance 1 of the result, but not
necessarily the nearest one). -/
theorem processScoreType_integer_coercion :
    (∀ (definition : ScoreDefinition) (minValue maxValue : Int)
      (thresholds : List NumericThreshold) (project : String) (i : Int),
      definition.type = .integer minValue maxValue thresholds →
      -(2 ^ 31) ≤ i → i ≤ 2 ^ 31 - 1 →
      ∃ s, processScoreType definition (some (.int64 i)) project = .ok s ∧
        s.value = .integerValue i minValue maxValue) ∧
    (∀ (definition : ScoreDefinition) (minValue maxValue : Int)
      (thresholds : List NumericThreshold) (project : String) (q : ℚ),
      definition.type = .integer minValue maxValue thresholds →
      -(2 ^ 31) ≤ q → q ≤ 2 ^ 31 - 1 →
      ∃ s, processScoreType definition (some (.float64 q)) project = .ok s ∧
        s.value = .integerValue (truncTowardZero q) minValue maxValue ∧
        truncTowardZero q = (if 0 ≤ q then ⌊q⌋ else ⌈q⌉) ∧
        ((truncTowardZero q : Int) : ℚ) - q < 1 ∧
        q - ((truncTowardZero q : Int) : ℚ) < 1) := by
  constructor
  · intro definition minValue maxValue thresholds project i htype hlo hhi
    obtain ⟨did, ddn, dds, du, dudn, dty, df⟩ := definition
    simp only at htype
    subst htype
    exact ⟨_, rfl, by simp [processScoreType, mkScore, wrap32_eq_self i hlo hhi]⟩
  · intro definition minValue maxValue thresholds project q htype hlo hhi
    have hb := truncTowardZero_bounds q hlo hhi
    obtain ⟨did, ddn, dds, du, dudn, dty, df⟩ := definition
    simp only at htype
    subst htype
    exact ⟨_, rfl,
      by simp [processScoreType, mkScore, int32OfRat, wrap32_eq_self _ hb.1 hb.2],
      truncTowardZero_eq q, (truncTowardZero_close q).1, (truncTowardZero_close q).2⟩

/-- Witness for C3 at the concrete float 1.9 under a definition with
range [0, 100]. -/
theorem processScoreType_integer_coercion_witness :
    ({ id := "d", displayName := "", description := "", uri := "", uriDisplayName := "",
       type := .integer 0 100 [], formula := .unknown : ScoreDefinition }.type =
        .integer 0 100 []) ∧
    (-(2 ^ 31) ≤ mkRat 19 10) ∧ (mkRat 19 10 ≤ 2 ^ 31 - 1) ∧
    ∃ s, processScoreType
        { id := "d", displayName := "", description := "", uri := "", uriDisplayName := "",
          type := .integer 0 100 [], formula := .unknown }
        (some (.float64 (mkRat 19 10))) "p" = .ok s ∧
      s.value = .integerValue (truncTowardZero (mkRat 19 10)) 0 100 ∧
      truncTowardZero (mkRat 19 10) =
        (if 0 ≤ mkRat 19 10 then ⌊mkRat 19 10⌋ else ⌈mkRat 19 10⌉) ∧
      ((truncTowardZero (mkRat 19 10) : Int) : ℚ) - mkRat 19 10 < 1 ∧
      mkRat 19 10 - ((truncTowardZero (mkRat 19 10) : Int) : ℚ) < 1 :=
  ⟨by decide, by rw [Rat.mkRat_eq_div] ; norm_num, by rw [Rat.mkRat_eq_div] ; norm_num,
    processScoreType_integer_coercion.2
      { id := "d", displayName := "", description := "", uri := "", uriDisplayName := "",
        type := .integer 0 100 [], formula := .unknown }
      0 100 [] "p" (mkRat 19 10) rfl (by rw [Rat.mkRat_eq_div] ; norm_num)
      (by rw [Rat.mkRat_eq_div] ; norm_num)⟩

/-- C3 counterexample: on the float 1.9 the integer coercion produces 1,
although 2 is strictly nearer to 1.9 than 1 is: the value is not the
nearest 32-bit integer. -/
theorem processScoreType_not_nearest_cex :
    (processScoreType
      { id := "d", displayName := "", description := "", uri := "", uriDisplayName := "",
        type := .integer 0 100 [], formula := .unknown }
      (some (.float64 (mkRat 19 10))) "p").toOption.map Score.value =
      some (.integerValue 1 0 100) ∧
    2 - mkRat 19 10 < mkRat 19 10 - 1 := by
  constructor
  · decide
  · rw [Rat.mkRat_eq_div]
    norm_num

theorem booleanSeverity_eq_getLast (b : Bool) (ths : List BooleanThreshold) :
    ∀ sev : Severity,
      booleanSeverity b sev ths =
        match (ths.filter (fun t => t.value == b)).getLast? with
        | some t => t.severity
        | none => sev := by
  induction ths with
  | nil => intro sev; rfl
  | cons t rest ih =>
    intro sev
    unfold booleanSeverity
    rw [ih, List.filter_cons]
    by_cases h : t.value == b
    · simp only [h, if_true, List.getLast?_cons]
      cases hc : (List.filter (fun t => t.value == b) rest).getLast? <;> simp [hc]
    · simp [h]

/-- C4 (amended): for a boolean-typed definition the severity is that of
the last threshold in the list whose value equals the result (the
source loop assigns without breaking, so a later match overwrites an
earlier one), and the default severity when none matches. -/
theorem processScoreType_boolean_last_threshold
    (definition : ScoreDefinition) (displayTrue displayFalse : String)
    (thresholds : List BooleanThreshold) (b : Bool) (project : String) (s : Score)
    (htype : definition.type = .boolean displayTrue displayFalse thresholds)
    (h : processScoreType definition (some (.boolean b)) project = .ok s) :
    s.severity =
      match (thresholds.filter (fun t => t.value == b)).getLast? with
      | some t => t.severity
      | none => .unspecified := by
  obtain ⟨did, ddn, dds, du, dudn, dty, df⟩ := definition
  simp only at htype
  subst htype
  simp only [processScoreType, Except.ok.injEq] at h
  subst h
  simp only [mkScore]
  exact booleanSeverity_eq_getLast b thresholds .unspecified

/-- Witness for C4 at a concrete definition with two thresholds matching
`true`: the produced severity is the second (alert). -/
theorem processScoreType_boolean_last_threshold_witness :
    processScoreType
      { id := "d", displayName := "", description := "", uri := "", uriDisplayName := "",
        type := .boolean "" "" [⟨.warning, true⟩, ⟨.alert, true⟩], formula := .unknown }
      (some (.boolean true)) "p" =
      .ok { id := "score-d", displayName := "", description := "", uri := "",
            uriDisplayName := "", definitionName := "p/artifacts/d",
            value := .booleanValue true "true", severity := .alert } ∧
    Score.severity
      { id := "score-d", displayName := "", description := "", uri := "",
        uriDisplayName := "", definitionName := "p/artifacts/d",
        value := .booleanValue true "true", severity := .alert } =
      match (([⟨.warning, true⟩, ⟨.alert, true⟩] : List BooleanThreshold).filter
          (fun t => t.value == true)).getLast? with
      | some t => t.severity
      | none => .unspecified :=
  ⟨by decide,
   processScoreType_boolean_last_threshold
      { id := "d", displayName := "", description := "", uri := "", uriDisplayName := "",
        type := .boolean "" "" [⟨.warning, true⟩, ⟨.alert, true⟩], formula := .unknown }
      "" "" [⟨.warning, true⟩, ⟨.alert, true⟩] true "p"
      { id := "score-d", displayName := "", description := "", uri := "",
        uriDisplayName := "", definitionName := "p/artifacts/d",
        value := .booleanValue true "true", severity := .alert }
      rfl (by decide)⟩

/-- C4 counterexample: with thresholds `[warning ↦ true, alert ↦ true]`
and result `true`, the produced severity is alert, while the FIRST
threshold whose value equals the result carries warning: the first
matching threshold does not determine the severity. -/
theorem processScoreType_boolean_not_first_cex :
    (processScoreType
      { id := "d", displayName := "", description := "", uri := "", uriDisplayName := "",
        type := .boolean "" "" [⟨.warning, true⟩, ⟨.alert, true⟩], formula := .unknown }
      (some (.boolean true)) "p").toOption.map Score.severity = some .alert ∧
    List.find? (fun t => t.value == true)
      [(⟨.warning, true⟩ : BooleanThreshold), ⟨.alert, true⟩] =
      some (⟨.warning, true⟩ : BooleanThreshold) ∧
    Severity.alert ≠ Severity.warning := by decide

theorem numericSeverity_eq_find (value : Int) (ths : List NumericThreshold) :
    numericSeverity value ths =
      match ths.find? (fun t => decide (t.range.min ≤ value ∧ value ≤ t.range.max)) with
      | some t => t.severity
      | none => .unspecified := by
  induction ths with
  | nil => rfl
  | cons t rest ih =>
    unfold numericSeverity
    by_cases h : t.range.min ≤ value ∧ value ≤ t.range.max
    · rw [if_pos h, List.find?_cons_of_pos _ (by simpa using h)]
    · rw [if_neg h, List.find?_cons_of_neg _ (by simpa using h), ih]

/-- C5: for an integer-typed definition, the coerced int32 value stored
in the Score determines the severity: alert when outside the configured
[min, max], otherwise the severity of the first threshold in list order
whose range contains the value, and the default severity when no
threshold matches. -/
theorem processScoreType_integer_severity
    (definition : ScoreDefinition) (minValue maxValue : Int)
    (thresholds : List NumericThreshold) (project : String) (v : ScoreValue) (s : Score)
    (value minV maxV : Int)
    (htype : definition.type = .integer minValue maxValue thresholds)
    (h : processScoreType definition (some v) project = .ok s)
    (hval : s.value = .integerValue value minV maxV) :
    s.severity =
      if value < minValue ∨ maxValue < value then .alert
      else
        match thresholds.find? (fun t => decide (t.range.min ≤ value ∧ value ≤ t.range.max)) with
        | some t => t.severity
        | none => .unspecified := by
  obtain ⟨did, ddn, dds, du, dudn, dty, df⟩ := definition
  simp only at htype
  subst htype
  cases v with
  | int64 i =>
    simp only [processScoreType, Except.ok.injEq] at h
    subst h
    simp only [mkScore, ScoreOutValue.integerValue.injEq] at hval
    obtain ⟨h1, h2, h3⟩ := hval
    subst h1
    simp [mkScore, numericSeverity_eq_find]
  | float64 q =>
    simp only [processScoreType, Except.ok.injEq] at h
    subst h
    simp only [mkScore, ScoreOutValue.integerValue.injEq] at hval
    obtain ⟨h1, h2, h3⟩ := hval
    subst h1
    simp [mkScore, numericSeverity_eq_find]
  | boolean b =>
    simp [processScoreType] at h

/-- Witness for C5 at a concrete definition whose thresholds overlap: the
value 45 is in both ranges and takes the first threshold's severity. -/
theorem processScoreType_integer_severity_witness :
    processScoreType
      { id := "d", displayName := "", description := "", uri := "", uriDisplayName := "",
        type := .integer 0 100 [⟨.okay, ⟨0, 50⟩⟩, ⟨.warning, ⟨40, 100⟩⟩],
        formula := .unknown }
      (some (.int64 45)) "p" =
      .ok { id := "score-d", displayName := "", description := "", uri := "",
            uriDisplayName := "", definitionName := "p/artifacts/d",
            value := .integerValue 45 0 100, severity := .okay } ∧
    Score.severity
      { id := "score-d", displayName := "", description := "", uri := "",
        uriDisplayName := "", definitionName := "p/artifacts/d",
        value := .integerValue 45 0 100, severity := .okay } =
      (if (45 : Int) < 0 ∨ (100 : Int) < 45 then .alert
       else
        match ([⟨.okay, ⟨0, 50⟩⟩, ⟨.warning, ⟨40, 100⟩⟩] :
            List NumericThreshold).find?
            (fun t => decide (t.range.min ≤ (45 : Int) ∧ (45 : Int) ≤ t.range.max)) with
        | some t => t.severity
        | none => .unspecified) :=
  ⟨by decide,
   processScoreType_integer_severity
      { id := "d", displayName := "", description := "", uri := "", uriDisplayName := "",
        type := .integer 0 100 [⟨.okay, ⟨0, 50⟩⟩, ⟨.warning, ⟨40, 100⟩⟩],
        formula := .unknown }
      0 100 [⟨.okay, ⟨0, 50⟩⟩, ⟨.warning, ⟨40, 100⟩⟩] "p" (.int64 45)
      { id := "score-d", displayName := "", description := "", uri := "",
        uriDisplayName := "", definitionName := "p/artifacts/d",
        value := .integerValue 45 0 100, severity := .okay }
      45 0 100 rfl (by decide) (by decide)⟩

theorem rollUpLoop_error_of_invalid (takeAction : Bool)
    (l : List (String × FormulaOutcome)) :
    ∀ (m : String → Option ScoreValue) (upd : Bool),
      (∃ x ∈ l, x.1 = "" ∨ '-' ∈ x.1.data) →
      ∃ e, rollUpLoop takeAction l m upd = .error e := by
  induction l with
  | nil =>
    intro m upd h
    obtain ⟨x, hx, _⟩ := h
    cases hx
  | cons p rest ih =>
    intro m upd h
    obtain ⟨refId, outcome⟩ := p
    cases outcome with
    | failure e =>
      exact ⟨"error processing rollup_formula.score_formulas: " ++ e,
        by simp [rollUpLoop, processScoreFormula]⟩
    | success v newer =>
      by_cases h1 : refId = ""
      · exact ⟨"missing reference_id for score_formula",
          by simp [rollUpLoop, processScoreFormula, h1]⟩
      · by_cases h2 : '-' ∈ refId.data
        · exact ⟨"invalid reference_id for score_formula: cannot contain a dash",
            by simp [rollUpLoop, processScoreFormula, h1, h2]⟩
        · obtain ⟨x, hx, hbad⟩ := h
          rcases List.mem_cons.mp hx with hhead | htail
          · subst hhead
            rcases hbad with hb | hb
            · exact absurd hb h1
            · exact absurd hb h2
          · obtain ⟨e, he⟩ :=
              ih (fun k => if k = refId then some v else m k)
                (upd || (takeAction || newer)) ⟨x, htail, hbad⟩
            exact ⟨e, by simp [rollUpLoop, processScoreFormula, h1, h2, he]⟩

theorem rollUpLoop_preserves (takeAction : Bool)
    (l : List (String × FormulaOutcome)) :
    ∀ (m : String → Option ScoreValue) (upd : Bool)
      (mFinal : String → Option ScoreValue) (updFinal : Bool) (k : String),
      rollUpLoop takeAction l m upd = .ok (mFinal, updFinal) →
      k ∉ l.map Prod.fst →
      mFinal k = m k := by
  induction l with
  | nil =>
    intro m upd mFinal updFinal k h _
    simp only [rollUpLoop, Except.ok.injEq, Prod.mk.injEq] at h
    rw [← h.1]
  | cons p rest ih =>
    intro m upd mFinal updFinal k h hk
    obtain ⟨refId, outcome⟩ := p
    simp only [List.map_cons, List.mem_cons, not_or] at hk
    obtain ⟨hk1, hk2⟩ := hk
    cases outcome with
    | failure e => simp [rollUpLoop, processScoreFormula] at h
    | success v newer =>
      by_cases h1 : refId = ""
      · simp [rollUpLoop, processScoreFormula, h1] at h
      · by_cases h2 : '-' ∈ refId.data
        · simp [rollUpLoop, processScoreFormula, h1, h2] at h
        · simp only [rollUpLoop, processScoreFormula] at h
          rw [if_neg h1] at h
          rw [if_neg (by simpa using h2)] at h
          have := ih _ _ _ _ k h hk2
          rw [this]
          simp [hk1]

theorem rollUpLoop_stores (takeAction : Bool)
    (l : List (String × FormulaOutcome)) :
    ∀ (m : String → Option ScoreValue) (upd : Bool),
      (∀ x ∈ l, x.1 ≠ "" ∧ '-' ∉ x.1.data ∧
        ∃ v newer, x.2 = FormulaOutcome.success v newer) →
      (l.map Prod.fst).Nodup →
      ∃ mFinal updFinal, rollUpLoop takeAction l m upd = .ok (mFinal, updFinal) ∧
        ∀ x ∈ l, ∀ v newer, x.2 = FormulaOutcome.success v newer → mFinal x.1 = some v := by
  induction l with
  | nil =>
    intro m upd _ _
    exact ⟨m, upd, rfl, by simp⟩
  | cons p rest ih =>
    intro m upd hvalid hnodup
    obtain ⟨refId, outcome⟩ := p
    obtain ⟨h1, h2, v, newer, hout⟩ := hvalid _ (List.mem_cons_self _ _)
    simp only at hout
    subst hout
    simp only [List.map_cons, List.nodup_cons] at hnodup
    obtain ⟨hknotin, hnodup⟩ := hnodup
    obtain ⟨mFinal, updFinal, hloop, hstore⟩ :=
      ih (fun k => if k = refId then some v else m k) (upd || (takeAction || newer))
        (fun x hx => hvalid x (List.mem_cons_of_mem _ hx)) hnodup
    refine ⟨mFinal, updFinal, ?_, ?_⟩
    · simp only [rollUpLoop, processScoreFormula]
      rw [if_neg h1, if_neg (by simpa using h2)]
      exact hloop
    · intro x hx w newerW hx2
      rcases List.mem_cons.mp hx with hh | ht
      · subst hh
        simp only [FormulaOutcome.success.injEq] at hx2
        obtain ⟨hv, _⟩ := hx2
        subst hv
        have hpres := rollUpLoop_preserves takeAction rest _ _ _ _ refId hloop hknotin
        rw [hpres]
        simp
      · exact hstore x ht w newerW hx2

/-- C6: a rollup formula errors (with no value) whenever any inner score
formula's reference id is empty or contains a dash; when every reference
id is valid (and distinct) and every inner formula succeeds, the rollup
map built by the loop stores each inner result under its reference id. -/
theorem processRollUpFormula_reference_ids :
    (∀ (takeAction : Bool) (rollupExpression : String)
      (scoreFormulas : List (String × FormulaOutcome))
      (evalRollup : (String → Option ScoreValue) → Except String ScoreValue),
      (∃ x ∈ scoreFormulas, x.1 = "" ∨ '-' ∈ x.1.data) →
      (processRollUpFormula takeAction rollupExpression scoreFormulas evalRollup).err ≠
        none ∧
      (processRollUpFormula takeAction rollupExpression scoreFormulas evalRollup).value =
        none) ∧
    (∀ (takeAction : Bool) (scoreFormulas : List (String × FormulaOutcome))
      (m : String → Option ScoreValue) (upd : Bool),
      (∀ x ∈ scoreFormulas, x.1 ≠ "" ∧ '-' ∉ x.1.data ∧
        ∃ v newer, x.2 = FormulaOutcome.success v newer) →
      (scoreFormulas.map Prod.fst).Nodup →
      ∃ mFinal updFinal,
        rollUpLoop takeAction scoreFormulas m upd = .ok (mFinal, updFinal) ∧
        ∀ x ∈ scoreFormulas, ∀ v newer,
          x.2 = FormulaOutcome.success v newer → mFinal x.1 = some v) := by
  constructor
  · intro takeAction rollupExpression scoreFormulas evalRollup hbad
    have hne : scoreFormulas.isEmpty = false := by
      obtain ⟨x, hx, _⟩ := hbad
      cases scoreFormulas with
      | nil => cases hx
      | cons a l => rfl
    unfold processRollUpFormula
    rw [hne]
    simp only [Bool.false_eq_true, if_false]
    by_cases hexpr : rollupExpression = ""
    · simp [hexpr]
    · obtain ⟨e, he⟩ :=
        rollUpLoop_error_of_invalid takeAction scoreFormulas (fun _ => none) takeAction hbad
      simp [hexpr, he]
  · exact rollUpLoop_stores

/-- Witness for C6: a reference id containing a dash makes the rollup
error; a valid singleton rollup stores its result under its id. -/
theorem processRollUpFormula_reference_ids_witness :
    ((processRollUpFormula true "expr" [("a-b", .success (.int64 1) false)]
        (fun _ => Except.ok (.int64 0))).err ≠ none ∧
     (processRollUpFormula true "expr" [("a-b", .success (.int64 1) false)]
        (fun _ => Except.ok (.int64 0))).value = none) ∧
    ∃ mFinal updFinal,
      rollUpLoop false [("a", FormulaOutcome.success (.int64 1) false)]
        (fun _ => none) false = .ok (mFinal, updFinal) ∧
      ∀ x ∈ [("a", FormulaOutcome.success (ScoreValue.int64 1) false)], ∀ v newer,
        x.2 = FormulaOutcome.success v newer → mFinal x.1 = some v :=
  ⟨processRollUpFormula_reference_ids.1 true "expr"
      [("a-b", .success (.int64 1) false)] (fun _ => Except.ok (.int64 0))
      ⟨("a-b", .success (.int64 1) false), List.mem_cons_self _ _, Or.inr (by decide)⟩,
   processRollUpFormula_reference_ids.2 false
      [("a", FormulaOutcome.success (.int64 1) false)] (fun _ => none) false
      (fun x hx => by
        simp only [List.mem_singleton] at hx
        subst hx
        exact ⟨by decide, by decide, .int64 1, false, rfl⟩)
      (by simp)⟩

theorem calculateScore_error_of_err (threshold defUpdateTime : Int) (fetch : FetchResult)
    (definition : ScoreDefinition) (project : String) (dryRun : Bool)
    (takeAction : Bool) (e : String)
    (hta : computeTakeAction threshold defUpdateTime fetch = .ok takeAction)
    (herr : (processFormula takeAction definition.formula).err = some e) :
    calculateScore threshold defUpdateTime fetch definition project dryRun = .error e := by
  unfold calculateScore
  rw [hta]
  simp only [bind, Except.bind]
  rw [herr]

theorem rollUpLoop_first_failure (takeAction : Bool)
    (pre : List (String × FormulaOutcome)) :
    ∀ (rid e : String) (rest : List (String × FormulaOutcome))
      (m : String → Option ScoreValue) (upd : Bool),
      (∀ x ∈ pre, x.1 ≠ "" ∧ '-' ∉ x.1.data ∧
        ∃ v newer, x.2 = FormulaOutcome.success v newer) →
      rollUpLoop takeAction (pre ++ (rid, FormulaOutcome.failure e) :: rest) m upd =
        .error ("error processing rollup_formula.score_formulas: " ++ e) := by
  induction pre with
  | nil =>
    intro rid e rest m upd _
    simp [rollUpLoop, processScoreFormula]
  | cons p pre ih =>
    intro rid e rest m upd hvalid
    obtain ⟨refId, outcome⟩ := p
    obtain ⟨h1, h2, v, newer, hout⟩ := hvalid _ (List.mem_cons_self _ _)
    simp only at hout
    subst hout
    simp only [List.cons_append, rollUpLoop, processScoreFormula]
    rw [if_neg h1, if_neg (by simpa using h2)]
    exact ih rid e rest _ _ (fun x hx => hvalid x (List.mem_cons_of_mem _ hx))

/-- C7: a formula error makes `CalculateScore` return that error
unchanged and upload nothing; for a rollup whose inner formulas are
valid up to the first failing one, the returned error is the first
failing inner formula's error (with the rollup context prefix), and no
partial artifact is written. -/
theorem calculateScore_no_partial_upload :
    (∀ (threshold defUpdateTime : Int) (fetch : FetchResult)
      (definition : ScoreDefinition) (project : String) (dryRun : Bool)
      (takeAction : Bool) (e : String),
      computeTakeAction threshold defUpdateTime fetch = .ok takeAction →
      (processFormula takeAction definition.formula).err = some e →
      calculateScore threshold defUpdateTime fetch definition project dryRun = .error e ∧
      uploadedScores
        (calculateScore threshold defUpdateTime fetch definition project dryRun) = []) ∧
    (∀ (threshold defUpdateTime : Int) (fetch : FetchResult)
      (definition : ScoreDefinition) (project : String) (dryRun : Bool)
      (takeAction : Bool) (rollupExpression rid e : String)
      (pre rest : List (String × FormulaOutcome))
      (evalRollup : (String → Option ScoreValue) → Except String ScoreValue),
      computeTakeAction threshold defUpdateTime fetch = .ok takeAction →
      definition.formula =
        .rollup rollupExpression (pre ++ (rid, .failure e) :: rest) evalRollup →
      rollupExpression ≠ "" →
      (∀ x ∈ pre, x.1 ≠ "" ∧ '-' ∉ x.1.data ∧
        ∃ v newer, x.2 = FormulaOutcome.success v newer) →
      calculateScore threshold defUpdateTime fetch definition project dryRun =
        .error ("error processing rollup_formula.score_formulas: " ++ e) ∧
      uploadedScores
        (calculateScore threshold defUpdateTime fetch definition project dryRun) = []) := by
  constructor
  · intro threshold defUpdateTime fetch definition project dryRun takeAction e hta herr
    have hc := calculateScore_error_of_err threshold defUpdateTime fetch definition
      project dryRun takeAction e hta herr
    exact ⟨hc, by rw [hc] ; rfl⟩
  · intro threshold defUpdateTime fetch definition project dryRun takeAction
      rollupExpression rid e pre rest evalRollup hta hform hexpr hvalid
    have hloop := rollUpLoop_first_failure takeAction pre rid e rest
      (fun _ => none) takeAction hvalid
    have hne : (pre ++ (rid, FormulaOutcome.failure e) :: rest).isEmpty = false := by
      cases pre <;> rfl
    have herr : (processFormula takeAction definition.formula).err =
        some ("error processing rollup_formula.score_formulas: " ++ e) := by
      rw [hform]
      simp only [processFormula, processRollUpFormula, hne, Bool.false_eq_true, if_false]
      rw [if_neg hexpr, hloop]
    have hc := calculateScore_error_of_err threshold defUpdateTime fetch definition
      project dryRun takeAction _ hta herr
    exact ⟨hc, by rw [hc] ; rfl⟩

/-- Witness for C7: a single failing formula, and a rollup whose second
inner formula fails after a valid first one. -/
theorem calculateScore_no_partial_upload_witness :
    (calculateScore 1 5 .notFound
      { id := "d", displayName := "", description := "", uri := "", uriDisplayName := "",
        type := .integer 0 100 [], formula := .single (.failure "bad") } "p" false =
      .error "bad" ∧
     uploadedScores (calculateScore 1 5 .notFound
      { id := "d", displayName := "", description := "", uri := "", uriDisplayName := "",
        type := .integer 0 100 [], formula := .single (.failure "bad") } "p" false) = []) ∧
    (calculateScore 1 5 .notFound
      { id := "d", displayName := "", description := "", uri := "", uriDisplayName := "",
        type := .integer 0 100 [],
        formula := .rollup "expr"
          ([("a", .success (.int64 1) false)] ++ ("r", .failure "boom") :: [])
          (fun _ => Except.ok (.int64 0)) } "p" false =
      .error ("error processing rollup_formula.score_formulas: " ++ "boom") ∧
     uploadedScores (calculateScore 1 5 .notFound
      { id := "d", displayName := "", description := "", uri := "", uriDisplayName := "",
        type := .integer 0 100 [],
        formula := .rollup "expr"
          ([("a", .success (.int64 1) false)] ++ ("r", .failure "boom") :: [])
          (fun _ => Except.ok (.int64 0)) } "p" false) = []) :=
  ⟨calculateScore_no_partial_upload.1 1 5 .notFound
      { id := "d", displayName := "", description := "", uri := "", uriDisplayName := "",
        type := .integer 0 100 [], formula := .single (.failure "bad") } "p" false
      true "bad" (by decide) rfl,
   calculateScore_no_partial_upload.2 1 5 .notFound
      { id := "d", displayName := "", description := "", uri := "", uriDisplayName := "",
        type := .integer 0 100 [],
        formula := .rollup "expr"
          ([("a", .success (.int64 1) false)] ++ ("r", .failure "boom") :: [])
          (fun _ => Except.ok (.int64 0)) } "p" false
      true "expr" "r" "boom" [("a", .success (.int64 1) false)] []
      (fun _ => Except.ok (.int64 0)) (by decide) rfl (by decide)
      (fun x hx => by
        simp only [List.mem_singleton] at hx
        subst hx
        exact ⟨by decide, by decide, .int64 1, false, rfl⟩)⟩

/-- C8: on export, an empty recommended version (deployment) name maps to
the empty string with no error, and a parseable one is replaced by the
bare version (deployment) id exactly when its API equals the exported
API, and kept verbatim otherwise. -/
theorem relativeName_spec :
    (∀ apiName : ApiName, relativeVersionName apiName "" = .ok "") ∧
    (∀ (apiName : ApiName) (version : String) (versionName : VersionName),
      parseVersion version = some versionName →
      relativeVersionName apiName version =
        .ok (if versionName.api.render = apiName.render then versionName.versionID
             else version)) ∧
    (∀ apiName : ApiName, relativeDeploymentName apiName "" = .ok "") ∧
    (∀ (apiName : ApiName) (deployment : String) (deploymentName : DeploymentName),
      parseDeployment deployment = some deploymentName →
      relativeDeploymentName apiName deployment =
        .ok (if deploymentName.api.render = apiName.render then deploymentName.deploymentID
             else deployment)) := by
  refine ⟨fun apiName => rfl, ?_, fun apiName => rfl, ?_⟩
  · intro apiName version versionName hparse
    have hne : ¬version = "" := by
      intro hv
      subst hv
      rw [show parseVersion "" = none from rfl] at hparse
      cases hparse
    unfold relativeVersionName
    rw [if_neg hne, hparse]
    by_cases hr : versionName.api.render = apiName.render <;> simp [hr]
  · intro apiName deployment deploymentName hparse
    have hne : ¬deployment = "" := by
      intro hv
      subst hv
      rw [show parseDeployment "" = none from rfl] at hparse
      cases hparse
    unfold relativeDeploymentName
    rw [if_neg hne, hparse]
    by_cases hr : deploymentName.api.render = apiName.render <;> simp [hr]

/-- Witness for C8: a version under the exported API becomes its bare id;
a deployment under another API is kept verbatim. -/
theorem relativeName_spec_witness :
    relativeVersionName ⟨"p", "a"⟩ "projects/p/locations/global/apis/a/versions/v1" =
      .ok (if (VersionName.api ⟨"p", "a", "v1"⟩).render = (ApiName.render ⟨"p", "a"⟩)
           then VersionName.versionID ⟨"p", "a", "v1"⟩
           else "projects/p/locations/global/apis/a/versions/v1") ∧
    relativeDeploymentName ⟨"p", "a"⟩ "projects/p/locations/global/apis/b/deployments/d1" =
      .ok (if (DeploymentName.api ⟨"p", "b", "d1"⟩).render = (ApiName.render ⟨"p", "a"⟩)
           then DeploymentName.deploymentID ⟨"p", "b", "d1"⟩
           else "projects/p/locations/global/apis/b/deployments/d1") :=
  ⟨relativeName_spec.2.1 ⟨"p", "a"⟩ "projects/p/locations/global/apis/a/versions/v1"
      ⟨"p", "a", "v1"⟩ (by decide),
   relativeName_spec.2.2.2 ⟨"p", "a"⟩ "projects/p/locations/global/apis/b/deployments/d1"
      ⟨"p", "b", "d1"⟩ (by decide)⟩

theorem collectChildArtifacts_eq_filter {α : Type} (decode : α → Option ArtifactModel)
    (messages : List α) :
    collectChildArtifacts decode messages =
      ((messages.filterMap decode).filter (fun a => !(a.kind == "Artifact"))).map
        (fun a => { a with apiVersion := "", parent := "" }) := by
  induction messages with
  | nil => rfl
  | cons m rest ih =>
    unfold collectChildArtifacts
    cases hd : decode m with
    | none => simp [List.filterMap_cons, hd, ih]
    | some artifact =>
      by_cases hk : artifact.kind = "Artifact"
      · simp [List.filterMap_cons, hd, hk, ih]
      · simp [List.filterMap_cons, List.filter_cons, hd, hk, ih]

theorem newApi_ok_artifacts {α : Type} (message : ApiMessage)
    (versionResults deploymentResults : List (Except String ChildDoc))
    (decode : α → Option ArtifactModel) (artifactMessages : List α) (doc : ApiDoc)
    (h : newApi message true versionResults deploymentResults decode artifactMessages =
      .ok doc) :
    doc.artifacts = collectChildArtifacts decode artifactMessages := by
  unfold newApi at h
  simp only [bind, Except.bind, if_true] at h
  iterate 5 all_goals try split at h
  any_goals exact Except.noConfusion h
  all_goals injection h with h
  all_goals subst h
  all_goals rfl

/-- C9: during nested export, the child artifact collection skips every
message that fails to decode and every decoded artifact of the generic
"Artifact" kind: the result is exactly the decodable artifacts of other
kinds with their inferable header fields cleared, no generic-kind
artifact is ever in it, and the exported document's child artifact list
is that collection. -/
theorem collectChildArtifacts_skips :
    (∀ (α : Type) (decode : α → Option ArtifactModel) (messages : List α),
      collectChildArtifacts decode messages =
        ((messages.filterMap decode).filter (fun a => !(a.kind == "Artifact"))).map
          (fun a => { a with apiVersion := "", parent := "" })) ∧
    (∀ (α : Type) (decode : α → Option ArtifactModel) (messages : List α),
      ∀ a ∈ collectChildArtifacts decode messages, a.kind ≠ "Artifact") ∧
    (∀ (α : Type) (message : ApiMessage)
      (versionResults deploymentResults : List (Except String ChildDoc))
      (decode : α → Option ArtifactModel) (messages : List α) (doc : ApiDoc),
      newApi message true versionResults deploymentResults decode messages = .ok doc →
      doc.artifacts = collectChildArtifacts decode messages) := by
  refine ⟨fun α decode messages => collectChildArtifacts_eq_filter decode messages, ?_,
    fun α message vres dres decode msgs doc h =>
      newApi_ok_artifacts message vres dres decode msgs doc h⟩
  intro α decode messages a ha
  rw [collectChildArtifacts_eq_filter] at ha
  simp only [List.mem_map, List.mem_filter] at ha
  obtain ⟨b, ⟨hb1, hb2⟩, hba⟩ := ha
  subst hba
  simpa using hb2

/-- Witness for C9: three messages, of which one decodes to the generic
kind and one fails to decode; only the third survives, and a nested
export carries exactly that survivor. -/
theorem collectChildArtifacts_skips_witness :
    ArtifactModel.kind ⟨"", "Lint", "", "y"⟩ ≠ "Artifact" ∧
    ApiDoc.artifacts
      { apiVersion := registryV1, kind := "API", name := "a", labels := [],
        annotations := [], displayName := "", description := "", availability := "",
        recommendedVersion := "", recommendedDeployment := "", apiVersions := [],
        apiDeployments := [],
        artifacts := [⟨"", "Lint", "", "y"⟩] } =
      collectChildArtifacts
        (fun n : Nat =>
          if n = 0 then some ⟨"v1", "Artifact", "par", "x"⟩
          else if n = 1 then some ⟨"v1", "Lint", "par", "y"⟩ else none)
        [0, 1, 2] :=
  ⟨collectChildArtifacts_skips.2.1 Nat
      (fun n => if n = 0 then some ⟨"v1", "Artifact", "par", "x"⟩
        else if n = 1 then some ⟨"v1", "Lint", "par", "y"⟩ else none)
      [0, 1, 2] ⟨"", "Lint", "", "y"⟩ (by decide),
   collectChildArtifacts_skips.2.2 Nat
      { name := "projects/p/locations/global/apis/a", displayName := "",
        description := "", availability := "", recommendedVersion := "",
        recommendedDeployment := "", labels := [], annotations := [] }
      [] []
      (fun n => if n = 0 then some ⟨"v1", "Artifact", "par", "x"⟩
        else if n = 1 then some ⟨"v1", "Lint", "par", "y"⟩ else none)
      [0, 1, 2]
      { apiVersion := registryV1, kind := "API", name := "a", labels := [],
        annotations := [], displayName := "", description := "", availability := "",
        recommendedVersion := "", recommendedDeployment := "", apiVersions := [],
        apiDeployments := [],
        artifacts := [⟨"", "Lint", "", "y"⟩] }
      (by decide)⟩

theorem gatherChildren_ok (l : List (Except String ChildDoc)) :
    (∀ r ∈ l, ∃ c, r = .ok c) → ∃ cs, gatherChildren l = .ok cs := by
  induction l with
  | nil => intro _; exact ⟨[], rfl⟩
  | cons r rest ih =>
    intro h
    obtain ⟨c, hc⟩ := h r (List.mem_cons_self _ _)
    subst hc
    obtain ⟨cs, hcs⟩ := ih (fun x hx => h x (List.mem_cons_of_mem _ hx))
    refine ⟨{ c with apiVersion := "", kind := "", parent := "" } :: cs, ?_⟩
    simp [gatherChildren, hcs, Except.map]

/-- C10: the export fails as a whole when a non-empty recommended version
or recommended deployment does not parse as a full resource name; by
contrast, artifact messages never fail the export (unknown kinds are
skipped): with empty recommended names and convertible children the
export succeeds whatever the artifact messages are. -/
theorem exportAPI_malformed_recommended_fatal :
    (∀ (α : Type) (message : ApiMessage) (nested : Bool)
      (versionResults deploymentResults : List (Except String ChildDoc))
      (decode : α → Option ArtifactModel) (artifactMessages : List α) (apiName : ApiName),
      parseApi message.name = some apiName →
      message.recommendedVersion ≠ "" →
      parseVersion message.recommendedVersion = none →
      ∃ e, exportAPI message nested versionResults deploymentResults decode
        artifactMessages = .error e) ∧
    (∀ (α : Type) (message : ApiMessage) (nested : Bool)
      (versionResults deploymentResults : List (Except String ChildDoc))
      (decode : α → Option ArtifactModel) (artifactMessages : List α)
      (apiName : ApiName) (rv : String),
      parseApi message.name = some apiName →
      relativeVersionName apiName message.recommendedVersion = .ok rv →
      message.recommendedDeployment ≠ "" →
      parseDeployment message.recommendedDeployment = none →
      ∃ e, exportAPI message nested versionResults deploymentResults decode
        artifactMessages = .error e) ∧
    (∀ (α : Type) (message : ApiMessage)
      (versionResults deploymentResults : List (Except String ChildDoc))
      (decode : α → Option ArtifactModel) (artifactMessages : List α)
      (apiName : ApiName),
      parseApi message.name = some apiName →
      message.recommendedVersion = "" →
      message.recommendedDeployment = "" →
      (∀ r ∈ versionResults, ∃ c, r = .ok c) →
      (∀ r ∈ deploymentResults, ∃ c, r = .ok c) →
      ∃ doc, exportAPI message true versionResults deploymentResults decode
        artifactMessages = .ok doc) := by
  refine ⟨?_, ?_, ?_⟩
  · intro α message nested versionResults deploymentResults decode artifactMessages
      apiName hp hne hpv
    refine ⟨"invalid version name: " ++ message.recommendedVersion, ?_⟩
    have hv : relativeVersionName apiName message.recommendedVersion =
        .error ("invalid version name: " ++ message.recommendedVersion) := by
      unfold relativeVersionName
      rw [if_neg hne, hpv]
    unfold exportAPI newApi
    simp [hp, bind, Except.bind, hv]
  · intro α message nested versionResults deploymentResults decode artifactMessages
      apiName rv hp hrv hne hpd
    refine ⟨"invalid deployment name: " ++ message.recommendedDeployment, ?_⟩
    have hd : relativeDeploymentName apiName message.recommendedDeployment =
        .error ("invalid deployment name: " ++ message.recommendedDeployment) := by
      unfold relativeDeploymentName
      rw [if_neg hne, hpd]
    unfold exportAPI newApi
    simp [hp, bind, Except.bind, hrv, hd]
  · intro α message versionResults deploymentResults decode artifactMessages
      apiName hp hrv hrd hv hd
    obtain ⟨vs, hvs⟩ := gatherChildren_ok versionResults hv
    obtain ⟨ds, hds⟩ := gatherChildren_ok deploymentResults hd
    have h1 : relativeVersionName apiName message.recommendedVersion = .ok "" := by
      rw [hrv]
      rfl
    have h2 : relativeDeploymentName apiName message.recommendedDeployment = .ok "" := by
      rw [hrd]
      rfl
    refine ⟨
      { apiVersion := registryV1, kind := "API", name := apiName.apiID,
        labels := message.labels, annotations := message.annotations,
        displayName := message.displayName, description := message.description,
        availability := message.availability, recommendedVersion := "",
        recommendedDeployment := "", apiVersions := vs, apiDeployments := ds,
        artifacts := collectChildArtifacts decode artifactMessages }, ?_⟩
    unfold exportAPI newApi
    simp [hp, bind, Except.bind, h1, h2, hvs, hds]

/-- Witness for C10: a malformed recommended version is fatal, a
malformed recommended deployment is fatal, and an export with empty
recommended names succeeds over arbitrary artifact messages. -/
theorem exportAPI_malformed_recommended_fatal_witness :
    (∃ e, exportAPI (α := Nat)
      { name := "projects/p/locations/global/apis/a", displayName := "",
        description := "", availability := "", recommendedVersion := "bogus",
        recommendedDeployment := "", labels := [], annotations := [] }
      true [] [] (fun _ => none) [] = .error e) ∧
    (∃ e, exportAPI (α := Nat)
      { name := "projects/p/locations/global/apis/a", displayName := "",
        description := "", availability := "", recommendedVersion := "",
        recommendedDeployment := "bogus", labels := [], annotations := [] }
      true [] [] (fun _ => none) [] = .error e) ∧
    (∃ doc, exportAPI (α := Nat)
      { name := "projects/p/locations/global/apis/a", displayName := "",
        description := "", availability := "", recommendedVersion := "",
        recommendedDeployment := "", labels := [], annotations := [] }
      true [] [] (fun _ => none) [0] = .ok doc) :=
  ⟨exportAPI_malformed_recommended_fatal.1 Nat
      { name := "projects/p/locations/global/apis/a", displayName := "",
        description := "", availability := "", recommendedVersion := "bogus",
        recommendedDeployment := "", labels := [], annotations := [] }
      true [] [] (fun _ => none) [] ⟨"p", "a"⟩ (by decide) (by decide) (by decide),
   exportAPI_malformed_recommended_fatal.2.1 Nat
      { name := "projects/p/locations/global/apis/a", displayName := "",
        description := "", availability := "", recommendedVersion := "",
        recommendedDeployment := "bogus", labels := [], annotations := [] }
      true [] [] (fun _ => none) [] ⟨"p", "a"⟩ "" (by decide) (by decide) (by decide)
      (by decide),
   exportAPI_malformed_recommended_fatal.2.2 Nat
      { name := "projects/p/locations/global/apis/a", displayName := "",
        description := "", availability := "", recommendedVersion := "",
        recommendedDeployment := "", labels := [], annotations := [] }
      [] [] (fun _ => none) [0] ⟨"p", "a"⟩ (by decide) (by decide) (by decide)
      (fun r hr => absurd hr (List.not_mem_nil r))
      (fun r hr => absurd hr (List.not_mem_nil r))⟩
